import Mathlib

/-!
Verification development for the homemade_hadoop MapReduce wordcount demo
(src/serveur.py, src/client.py).  Byte streams are modelled as `List Nat`
(one `Nat` per byte, already-received bytes followed by connection close),
dictionaries as key lists plus total value functions, and the master's
coordinator as an explicit step function over an embedded state record.
-/

namespace Hadoop

/-! ## Frame codec (serveur.py `recv_exact`/`recv_json`, client.py `_recv_exact`/`_recv_control`) -/

/-- Models `recv_exact(sock, size)` (serveur.py lines 32-39, client.py lines 463-470):
reading from a socket whose remaining delivered bytes are `stream`, the call returns
exactly `size` bytes plus the rest of the stream, or `None` when the connection
closes (the stream runs out) before `size` bytes arrive. -/
def recvExact (stream : List Nat) (size : Nat) : Option (List Nat × List Nat) :=
  if size ≤ stream.length then some (stream.take size, stream.drop size) else none

/-- Big-endian 4-byte encoding of a length, as produced by `struct.pack(">I", n)`. -/
def beBytes (n : Nat) : List Nat :=
  [n / 2 ^ 24 % 256, n / 2 ^ 16 % 256, n / 2 ^ 8 % 256, n % 256]

/-- Big-endian decoding of a byte list, as done by `struct.unpack(">I", b)[0]`. -/
def beDecode (bs : List Nat) : Nat :=
  bs.foldl (fun a b => a * 256 + b) 0

/-- Models the framing skeleton of `recv_json` (serveur.py lines 42-50) and
`_recv_control` (client.py lines 479-488): read a 4-byte length prefix, then the
payload.  `if not length_bytes: return None` and `if not payload: return None`
collapse a close before the header, a close inside the payload, an empty payload,
and a clean close at a frame boundary into the same `none` result. -/
def recvFrame (stream : List Nat) : Option (List Nat) :=
  match recvExact stream 4 with
  | none => none
  | some (lengthBytes, rest) =>
    let size := beDecode lengthBytes
    match recvExact rest size with
    | none => none
    | some (payload, _) =>
      if payload = [] then none else some payload


/-! ## Shuffle stream consumption (client.py `_consume_shuffle_stream`, lines 436-455) -/

/-- Models `payload.decode(self.encoding)`.  Words are kept at the byte level, so
decoding is the identity; a nonempty byte payload decodes to a nonempty word. -/
def decodeWord (payload : List Nat) : List Nat := payload

/-- One loop of `_consume_shuffle_stream`, structurally recursive on a fuel
bound on the number of iterations.  Each iteration reads a 4-byte length then
the payload; `if not length_bytes: break` and `if not payload: break` end the
loop on a close mid-frame, a clean close and also on an empty payload; otherwise
the decoded word's count is incremented by one and the loop continues.  Every
iteration consumes at least 4 bytes so `stream.length` iterations always
suffice; `consumeAux_congr` below shows the result is fuel-independent once the
fuel reaches `stream.length`. -/
def consumeAux : Nat → List Nat → (List Nat → Nat) → (List Nat → Nat)
  | 0, _, acc => acc
  | fuel + 1, stream, acc =>
    match recvExact stream 4 with
    | none => acc
    | some (lengthBytes, rest) =>
      match recvExact rest (beDecode lengthBytes) with
      | none => acc
      | some (payload, rest2) =>
        if payload = [] then acc
        else
          let word := decodeWord payload
          if word = [] then consumeAux fuel rest2 acc
          else consumeAux fuel rest2 (fun u => if u = word then acc u + 1 else acc u)

/-- Models one inbound shuffle handler (`_consume_shuffle_stream`, client.py
lines 436-455) draining a connection whose delivered bytes are `stream`,
starting from local accumulator `acc` (the `_incoming_counts` Counter, as a
word-to-count function).  Socket timeouts and the shutdown event are not
modelled (they only re-enter or exit the same loop). -/
def consumeShuffleStream (stream : List Nat) (acc : List Nat → Nat) : List Nat → Nat :=
  consumeAux stream.length stream acc


end Hadoop

namespace Hadoop

/-! ## Chunk offsets (client.py `_compute_chunk_offsets`, lines 271-292)

The split file is modelled as its byte list (`10` is the newline byte). -/

/-- Number of bytes consumed by `handle.readline()` from the current position:
up to and including the first newline byte, or to end of file. -/
def readlineLen : List Nat → Nat
  | [] => 0
  | b :: rest => if b = 10 then 1 else 1 + readlineLen rest

/-- File position after `handle.seek(target); handle.readline(); handle.tell()`
for `target` within the file. -/
def lineEnd (file : List Nat) (target : Nat) : Nat :=
  target + readlineLen (file.drop target)

/-- The `for _ in range(workers - 1)` loop of `_compute_chunk_offsets`, with the
fuel argument playing the role of the remaining range iterations, plus the
final `offsets.append((start, size))`.  `size` is the file length. -/
def chunkLoop (file : List Nat) (chunkSize : Nat) : Nat → Nat → List (Nat × Nat)
  | 0, start => [(start, file.length)]
  | fuel + 1, start =>
    let target := start + chunkSize
    if file.length ≤ target then [(start, file.length)]
    else
      let e := lineEnd file target
      if e ≤ start then [(start, file.length)]
      else (start, e) :: chunkLoop file chunkSize fuel e

/-- Models `_compute_chunk_offsets(path, workers)` on a file whose bytes are
`file`: `size = path.stat().st_size` is `file.length`, and seeking then reading
a line is `lineEnd`. -/
def computeChunkOffsets (file : List Nat) (workers : Nat) : List (Nat × Nat) :=
  let size := file.length
  if workers ≤ 1 ∨ size = 0 then [(0, size)]
  else chunkLoop file (max 1 (size / workers)) (workers - 1) 0

/-- Decidable version of exact tiling: the tiles chain from `a` to `b`, each
tile starting where the previous one ended. -/
def chainsTo : Nat → List (Nat × Nat) → Nat → Bool
  | a, [], b => a = b
  | a, (s, e) :: rest, b => s = a && chainsTo e rest b


end Hadoop

namespace Hadoop

/-! ## Worker shuffle send path (client.py `_send_count` / `_send_word` /
`_flush_outgoing`, lines 368-421)

The mutable fields of `MapReduceClient` touched by this path are modelled as a
record; words and buffered bytes stay at the byte level (`word.encode` is the
identity on byte lists).  Python dictionaries indexed by destination are total
functions (a missing `_pending_frames` entry and an empty buffer are
indistinguishable to this code: both are falsy).  Network effects are resolved
by an oracle saying whether connection establishment (`_get_outgoing_socket`
after its bounded retries) and `sock.sendall` succeed; exceptions propagate with
all mutations made so far kept, as in Python. -/

structure ClientState where
  machineIndex : Nat
  incomingCounts : List Nat → Nat
  pendingFrames : Nat → List Nat
  outgoingSockets : Nat → Bool
  flushThreshold : Nat
  sentBytes : Nat → List Nat

structure NetOracle where
  connectOk : Nat → Bool
  sendOk : Nat → Bool

/-- Pointwise update of a destination-indexed map. -/
def updateFn {β : Type} (f : Nat → β) (k : Nat) (v : β) : Nat → β :=
  fun j => if j = k then v else f j

/-- The single-word shuffle frame built at client.py lines 378-380:
`header = struct.pack(">I", len(payload))`, `frame = header + payload`. -/
def singleWordFrame (word : List Nat) : List Nat :=
  beBytes word.length ++ word

/-- The `try: sock.sendall(buffer) finally: buffer.clear()` tail of
`_flush_outgoing` (lines 414-417).  The buffer is cleared whether or not
`sendall` raises; bytes reach the destination only on success.  The returned
Bool is `false` when the call raises. -/
def sendallAndClear (st : ClientState) (net : NetOracle) (dest : Nat) (buffer : List Nat) :
    ClientState × Bool :=
  if net.sendOk dest then
    ({ st with
        sentBytes := updateFn st.sentBytes dest (st.sentBytes dest ++ buffer),
        pendingFrames := updateFn st.pendingFrames dest [] }, true)
  else
    ({ st with pendingFrames := updateFn st.pendingFrames dest [] }, false)

/-- Models `_flush_outgoing(destination)` (lines 405-417).  An empty buffer
returns at once; otherwise the cached socket is used, or one is established
(`_get_outgoing_socket`) — if establishment raises, the call ends with the
buffer untouched.  The second `if not buffer` re-check of the source is a no-op
in this single-threaded path (the buffer was not modified in between). -/
def flushOutgoing (st : ClientState) (net : NetOracle) (dest : Nat) : ClientState × Bool :=
  let buffer := st.pendingFrames dest
  if buffer = [] then (st, true)
  else if st.outgoingSockets dest then
    sendallAndClear st net dest buffer
  else if net.connectOk dest then
    sendallAndClear { st with outgoingSockets := updateFn st.outgoingSockets dest true }
      net dest buffer
  else (st, false)

/-- Models `_send_count(destination, word, count)` (lines 371-384).  `count` is
a Python int, so it is taken as `Int` here; nonpositive counts return at once.
A self-destined word increments the local accumulator; otherwise
`buffer.extend(frame * count)` appends `count` copies of the single-word frame
to the destination's pending buffer and flushes at the threshold. -/
def sendCount (st : ClientState) (net : NetOracle) (dest : Nat) (word : List Nat)
    (count : Int) : ClientState × Bool :=
  if count ≤ 0 then (st, true)
  else if dest = st.machineIndex then
    ({ st with
        incomingCounts := fun u =>
          if u = word then st.incomingCounts u + count.toNat else st.incomingCounts u }, true)
  else
    let frame := singleWordFrame word
    let buffer := st.pendingFrames dest ++ List.flatten (List.replicate count.toNat frame)
    let st1 := { st with pendingFrames := updateFn st.pendingFrames dest buffer }
    if st1.flushThreshold = 0 ∨ st1.flushThreshold ≤ buffer.length then
      flushOutgoing st1 net dest
    else (st1, true)

/-- Models `_send_word(destination, word)` (lines 368-369). -/
def sendWord (st : ClientState) (net : NetOracle) (dest : Nat) (word : List Nat) :
    ClientState × Bool :=
  sendCount st net dest word 1

/-- Iterates `_send_word` `n` times with the same destination and word,
threading the client state. -/
def iterSendWord (st : ClientState) (net : NetOracle) (dest : Nat) (word : List Nat) :
    Nat → ClientState
  | 0 => st
  | n + 1 => iterSendWord (sendWord st net dest word).1 net dest word n

end Hadoop

namespace Hadoop

/-! ## Master coordinator (serveur.py `MasterServer`)

The shared state guarded by `self._condition` is a record; the dictionaries
`_clients`, `_map_finished` and `_reduce_results` are modelled as key lists
(without duplicates, `dinsert` mirroring `d[k] = v`) plus value functions.  The
coordinator's inner `while` body is an explicit step function; time enters only
through per-wake Booleans saying whether the current instant is past each
armed deadline. -/

inductive Stage where
  | registration
  | map
  | reduce
deriving DecidableEq

def stageName : Stage → String
  | .registration => "registration"
  | .map => "map"
  | .reduce => "reduce"

/-- The JSON control messages of the protocol (serveur.py `_process_message`,
client.py `_control_loop`), with the JSON envelope elided: `reduce_finished`
carries its `results` as already-typed `(word, count)` pairs, the shape kept by
the server's `isinstance` filtering.  A missing `error`/`reason` field is
`none`. -/
inductive CtrlMsg where
  | register (machineIndex : Nat) (splitId : String) (shufflePort : Nat)
  | startMap
  | mapFinished (machineIndex : Nat) (success : Bool) (error : Option String)
  | startReduce
  | reduceFinished (machineIndex : Nat) (success : Bool) (error : Option String)
      (results : List (String × Int))
  | shutdown (reason : Option String)
  | unknown
deriving DecidableEq

structure MasterState where
  expectedWorkers : Nat
  clients : List Nat
  mapFinKeys : List Nat
  mapFinVals : Nat → Bool × Option String
  reduceKeys : List Nat
  reduceVals : Nat → String → Int
  startMapSent : Bool
  startReduceSent : Bool
  currentStage : Option Stage
  regDeadlineActive : Bool
  mapDeadlineActive : Bool
  reduceDeadlineActive : Bool
  stageTimeoutConfigured : Bool
  stopped : Bool
  finalEmitted : Option (String → Int)

/-- Dictionary key insertion: `d[k] = v` grows the key set only when `k` is
new. -/
def dinsert (k : Nat) (l : List Nat) : List Nat :=
  if k ∈ l then l else l ++ [k]

/-- Models building `results_dict` from the `results` entries (serveur.py lines
169-176): later entries for the same word overwrite earlier ones; absent words
count as zero (the aggregation only ever sums the values). -/
def buildResultsDict (raw : List (String × Int)) : String → Int :=
  raw.foldl (fun d wc => fun v => if v = wc.1 then wc.2 else d v) (fun _ => 0)

/-- Models `_emit_final_result` (lines 302-309): the final Counter maps each
word to the sum of that word's count over every stored per-worker partial. -/
def emitFinal (st : MasterState) : String → Int :=
  fun w => (st.reduceKeys.map (fun k => st.reduceVals k w)).sum

/-- Models `_deadline_expired_locked` (lines 320-332).  `pastReg`, `pastMap`
and `pastReduce` say whether `time.monotonic()` has reached the corresponding
armed deadline; a disarmed deadline (`None`) never fires. -/
def deadlineExpired (st : MasterState) (pastReg pastMap pastReduce : Bool) : Option Stage :=
  if st.regDeadlineActive = true ∧ pastReg = true then some .registration
  else if st.currentStage = some .map ∧ st.mapDeadlineActive = true ∧ pastMap = true then
    some .map
  else if st.currentStage = some .reduce ∧ st.reduceDeadlineActive = true ∧ pastReduce = true then
    some .reduce
  else none

/-- Models `_prepare_shutdown_locked` (lines 334-345): stop, disarm every
deadline and clear the stage; the shutdown payload is built by the caller. -/
def prepareShutdown (st : MasterState) : MasterState :=
  { st with
      stopped := true
      regDeadlineActive := false
      mapDeadlineActive := false
      reduceDeadlineActive := false
      currentStage := none }

/-- One evaluation of the coordinator's predicate cascade (`_coordinate`, lines
197-247), in source order: expired deadline, then the registration barrier
(`start_map`), the map barrier (`start_reduce`), and the reduce barrier
(final aggregation plus `shutdown`).  Returns the updated state and the payload
broadcast, `none` when the coordinator goes back to waiting. -/
def coordStep (st : MasterState) (pastReg pastMap pastReduce : Bool) :
    MasterState × Option CtrlMsg :=
  match deadlineExpired st pastReg pastMap pastReduce with
  | some s => (prepareShutdown st, some (.shutdown (some (stageName s ++ "_timeout"))))
  | none =>
    if st.startMapSent = false ∧ st.expectedWorkers ≤ st.clients.length then
      ({ st with
          startMapSent := true
          currentStage := some .map
          regDeadlineActive := false
          mapDeadlineActive := st.stageTimeoutConfigured }, some .startMap)
    else if st.startMapSent = true ∧ st.startReduceSent = false ∧
        st.expectedWorkers ≤ st.mapFinKeys.length then
      ({ st with
          startReduceSent := true
          currentStage := some .reduce
          mapDeadlineActive := false
          reduceDeadlineActive := st.stageTimeoutConfigured }, some .startReduce)
    else if st.startReduceSent = true ∧ st.expectedWorkers ≤ st.reduceKeys.length then
      ({ st with
          finalEmitted := some (emitFinal st)
          reduceDeadlineActive := false
          currentStage := none
          stopped := true }, some (.shutdown none))
    else (st, none)

/-- Models `_process_message` (lines 142-186): `register` stores the client
under its machine index (replacing closes the old socket but keeps the key
set), `map_finished` records the report whatever its success flag, and
`reduce_finished` stores the parsed results on success and an empty dict on
failure.  Unknown messages are only logged. -/
def procMsg (st : MasterState) : CtrlMsg → MasterState
  | .register i _ _ => { st with clients := dinsert i st.clients }
  | .mapFinished i success error =>
    { st with
        mapFinKeys := dinsert i st.mapFinKeys
        mapFinVals := fun j => if j = i then (success, error) else st.mapFinVals j }
  | .reduceFinished i success _ results =>
    { st with
        reduceKeys := dinsert i st.reduceKeys
        reduceVals := fun j =>
          if j = i then (if success then buildResultsDict results else fun _ => 0)
          else st.reduceVals j }
  | _ => st

/-- External events driving the master: an inbound control message handled by a
connection thread, a client disconnect (`_handle_client`'s `finally`, or
broadcast-failure removal), or a coordinator wake-up carrying the state of the
three deadline clocks. -/
inductive MEvent where
  | msg (m : CtrlMsg)
  | disconnect (i : Nat)
  | wake (pastReg pastMap pastReduce : Bool)

/-- Applies one event.  After `_stop_event` is set the handler loops and the
coordinator loop all exit, so a stopped master reacts to nothing. -/
def applyEvent (st : MasterState) : MEvent → MasterState × Option CtrlMsg
  | .msg m => if st.stopped then (st, none) else (procMsg st m, none)
  | .disconnect i =>
    if st.stopped then (st, none) else ({ st with clients := st.clients.erase i }, none)
  | .wake r m rd => if st.stopped then (st, none) else coordStep st r m rd

/-- Runs a list of events, collecting every broadcast payload in order. -/
def runEvents (st : MasterState) : List MEvent → MasterState × List CtrlMsg
  | [] => (st, [])
  | ev :: rest =>
    let step := applyEvent st ev
    let tail := runEvents step.1 rest
    (tail.1, step.2.toList ++ tail.2)

/-- The master state built by `MasterServer.__init__` (lines 60-86):
`regTimeoutConfigured` / `stageTimeoutConfigured` say whether the respective
timeouts were given (a `None` or nonpositive timeout arms no deadline). -/
def initState (expected : Nat) (regTimeoutConfigured stageTimeoutConfig : Bool) : MasterState :=
  { expectedWorkers := expected
    clients := []
    mapFinKeys := []
    mapFinVals := fun _ => (false, none)
    reduceKeys := []
    reduceVals := fun _ _ => 0
    startMapSent := false
    startReduceSent := false
    currentStage := some .registration
    regDeadlineActive := regTimeoutConfigured
    mapDeadlineActive := false
    reduceDeadlineActive := false
    stageTimeoutConfigured := stageTimeoutConfig
    stopped := false
    finalEmitted := none }

/-- Forward order of the job stages: Registration, Map, Reduce, then the
cleared stage of a finished or shut-down job. -/
def stageRank : Option Stage → Nat
  | some .registration => 0
  | some .map => 1
  | some .reduce => 2
  | none => 3

/-- Consistency of the flags with the stage on a live master; it holds
initially and is preserved by every event. -/
def MasterInv (st : MasterState) : Prop :=
  st.stopped = false →
    ((st.startMapSent = false → st.currentStage = some .registration) ∧
     (st.startReduceSent = true → st.startMapSent = true) ∧
     (st.startMapSent = true → st.startReduceSent = false → st.currentStage = some .map) ∧
     (st.startReduceSent = true → st.currentStage = some .reduce))

/-! ## Worker control loop, map-stage outcome (client.py lines 139-148, 170-243) -/

/-- Outcome of `_run_map_stage`: the body's `try` block either raises (for
example `FileNotFoundError("split file missing: ...")` when the split file does
not exist, caught as `except Exception` at lines 239-240) giving
`(False, str(exc))`, or completes giving `(True, None)`. -/
def runMapStageOutcome (bodyError : Option String) : Bool × Option String :=
  match bodyError with
  | some msg => (false, some msg)
  | none => (true, none)

/-- The `map_finished` payload the worker sends back (client.py lines 140-148):
`success` is the stage status and `error` is present exactly when the stage
reported one. -/
def mapFinishedPayload (workerId : Nat) (outcome : Bool × Option String) : CtrlMsg :=
  CtrlMsg.mapFinished workerId outcome.1 outcome.2

/-! ## Concrete fixtures used to instantiate the general theorems -/

/-- A fresh worker client (machine index 0, empty accumulator and buffers, the
default 64 KiB threshold scaled down to 1000 for the examples). -/
def clientFixture : ClientState :=
  { machineIndex := 0
    incomingCounts := fun _ => 0
    pendingFrames := fun _ => []
    outgoingSockets := fun _ => false
    flushThreshold := 1000
    sentBytes := fun _ => [] }

/-- A network in which every connection attempt and send succeeds. -/
def netFixture : NetOracle :=
  { connectOk := fun _ => true
    sendOk := fun _ => true }

end Hadoop

namespace Hadoop

/-! ## Basic codec lemmas -/

theorem beBytes_length (n : Nat) : (beBytes n).length = 4 := rfl

theorem beDecode_beBytes (n : Nat) (h : n < 2 ^ 32) : beDecode (beBytes n) = n := by
  simp only [beBytes, beDecode, List.foldl]
  omega

theorem take_append_length {α : Type} (a b : List α) : (a ++ b).take a.length = a := by
  induction a with
  | nil => simp
  | cons x xs ih => simp [ih]

theorem drop_append_length {α : Type} (a b : List α) : (a ++ b).drop a.length = b := by
  induction a with
  | nil => simp
  | cons x xs ih => simp [ih]

theorem recvExact_append (a b : List Nat) :
    recvExact (a ++ b) a.length = some (a, b) := by
  simp [recvExact, take_append_length, drop_append_length]

theorem recvExact_some (s : List Nat) (n : Nat) (p r : List Nat)
    (h : recvExact s n = some (p, r)) :
    n ≤ s.length ∧ p = s.take n ∧ r = s.drop n := by
  by_cases hle : n ≤ s.length
  · simp [recvExact, hle] at h
    exact ⟨hle, h.1.symm, h.2.symm⟩
  · simp [recvExact, hle] at h

theorem consumeAux_congr :
    ∀ f g : Nat, ∀ stream : List Nat, ∀ acc : List Nat → Nat,
      stream.length ≤ f → stream.length ≤ g →
      consumeAux f stream acc = consumeAux g stream acc := by
  intro f
  induction f with
  | zero =>
    intro g stream acc hf _
    have hnil : stream = [] := List.length_eq_zero.mp (Nat.le_zero.mp hf)
    subst hnil
    cases g with
    | zero => rfl
    | succ g => simp [consumeAux, recvExact]
  | succ f ih =>
    intro g stream acc hf hg
    cases g with
    | zero =>
      have hnil : stream = [] := List.length_eq_zero.mp (Nat.le_zero.mp hg)
      subst hnil
      simp [consumeAux, recvExact]
    | succ g =>
      simp only [consumeAux, decodeWord]
      split
      · rfl
      · rename_i lengthBytes rest h4
        split
        · rfl
        · rename_i payload rest2 hp
          obtain ⟨hl4, -, hr4⟩ := recvExact_some _ _ _ _ h4
          obtain ⟨hlp, -, hrp⟩ := recvExact_some _ _ _ _ hp
          have hlen2 : rest2.length + 4 ≤ stream.length := by
            subst hr4; subst hrp
            simp only [List.length_drop]
            omega
          by_cases hpe : payload = []
          · simp [hpe]
          · simp only [hpe, if_false]
            exact ih g rest2 _ (by omega) (by omega)

/-- Unfolding rule for `consumeShuffleStream`: it performs one read iteration
and continues on the remaining stream. -/
theorem consumeShuffleStream_step (stream : List Nat) (acc : List Nat → Nat) :
    consumeShuffleStream stream acc =
      match recvExact stream 4 with
      | none => acc
      | some (lengthBytes, rest) =>
        match recvExact rest (beDecode lengthBytes) with
        | none => acc
        | some (payload, rest2) =>
          if payload = [] then acc
          else
            let word := decodeWord payload
            if word = [] then consumeShuffleStream rest2 acc
            else consumeShuffleStream rest2 (fun u => if u = word then acc u + 1 else acc u) := by
  unfold consumeShuffleStream
  cases hstream : stream.length with
  | zero =>
    have hnil : stream = [] := List.length_eq_zero.mp hstream
    subst hnil
    simp [consumeAux, recvExact]
  | succ n =>
    simp only [consumeAux, decodeWord]
    split
    · rfl
    · rename_i lengthBytes rest h4
      split
      · rfl
      · rename_i payload rest2 hp
        obtain ⟨hl4, -, hr4⟩ := recvExact_some _ _ _ _ h4
        obtain ⟨hlp, -, hrp⟩ := recvExact_some _ _ _ _ hp
        have hlen2 : rest2.length + 4 ≤ stream.length := by
          subst hr4; subst hrp
          simp only [List.length_drop]
          omega
        by_cases hpe : payload = []
        · simp [hpe]
        · simp only [hpe, if_false]
          exact consumeAux_congr n rest2.length rest2 _ (by omega) (le_refl _)

/-! ### Reading-a-line lemmas -/

theorem readlineLen_le (l : List Nat) : readlineLen l ≤ l.length := by
  induction l with
  | nil => simp [readlineLen]
  | cons b rest ih =>
    by_cases hb : b = 10
    · simp [readlineLen, hb]
    · simp [readlineLen, hb]
      omega

theorem readlineLen_pos (l : List Nat) (h : l ≠ []) : 1 ≤ readlineLen l := by
  cases l with
  | nil => exact absurd rfl h
  | cons b rest =>
    by_cases hb : b = 10 <;> simp [readlineLen, hb]

theorem readlineLen_newline (l : List Nat) :
    readlineLen l = l.length ∨ l.getD (readlineLen l - 1) 0 = 10 := by
  induction l with
  | nil => left; rfl
  | cons b rest ih =>
    by_cases hb : b = 10
    · right
      simp [readlineLen, hb]
    · rcases ih with hlen | hnl
      · left
        simp [readlineLen, hb, hlen]
        omega
      · right
        have hpos : 1 ≤ readlineLen rest := by
          cases rest with
          | nil =>
            exfalso
            simp [readlineLen] at hnl
          | cons c cs => exact readlineLen_pos _ (by simp)
        have harith : 1 + readlineLen rest - 1 = Nat.succ (readlineLen rest - 1) := by omega
        simp [readlineLen, hb, harith, List.getD]
        simpa [List.getD] using hnl

theorem getD_drop (n : Nat) (l : List Nat) (k d : Nat) :
    (l.drop n).getD k d = l.getD (n + k) d := by
  induction n generalizing l with
  | zero => simp
  | succ n ih =>
    cases l with
    | nil => simp
    | cons b rest =>
      rw [List.drop_succ_cons, ih rest]
      have harith : n + 1 + k = (n + k) + 1 := by omega
      rw [harith, List.getD_cons_succ]

theorem lineEnd_le (file : List Nat) (target : Nat) (h : target ≤ file.length) :
    lineEnd file target ≤ file.length := by
  have := readlineLen_le (file.drop target)
  simp only [lineEnd]
  simp only [List.length_drop] at this
  omega

theorem lineEnd_gt (file : List Nat) (target : Nat) (h : target < file.length) :
    target < lineEnd file target := by
  have hne : file.drop target ≠ [] := by
    intro hnil
    have := congrArg List.length hnil
    simp only [List.length_drop, List.length_nil] at this
    omega
  have := readlineLen_pos _ hne
  simp only [lineEnd]
  omega

theorem lineEnd_newline (file : List Nat) (target : Nat) (h : target < file.length) :
    lineEnd file target = file.length ∨ file.getD (lineEnd file target - 1) 0 = 10 := by
  have hne : file.drop target ≠ [] := by
    intro hnil
    have := congrArg List.length hnil
    simp only [List.length_drop, List.length_nil] at this
    omega
  have hpos := readlineLen_pos _ hne
  rcases readlineLen_newline (file.drop target) with hlen | hnl
  · left
    simp only [lineEnd, hlen, List.length_drop]
    omega
  · right
    have harith : lineEnd file target - 1 = target + (readlineLen (file.drop target) - 1) := by
      simp only [lineEnd]
      omega
    rw [harith, ← getD_drop]
    exact hnl

/-! ### Chunk loop invariants -/

theorem chunkLoop_ne_nil (file : List Nat) (chunkSize fuel start : Nat) :
    chunkLoop file chunkSize fuel start ≠ [] := by
  cases fuel with
  | zero => simp [chunkLoop]
  | succ fuel =>
    simp only [chunkLoop]
    split
    · simp
    · split
      · simp
      · simp

theorem chunkLoop_chains (file : List Nat) (chunkSize : Nat) :
    ∀ fuel start, start ≤ file.length →
      chainsTo start (chunkLoop file chunkSize fuel start) file.length = true := by
  intro fuel
  induction fuel with
  | zero =>
    intro start h
    simp [chunkLoop, chainsTo]
  | succ fuel ih =>
    intro start h
    simp only [chunkLoop]
    split
    · simp [chainsTo]
    · rename_i htarget
      split
      · simp [chainsTo]
      · rename_i he
        have htlt : start + chunkSize < file.length := by omega
        have hele : lineEnd file (start + chunkSize) ≤ file.length :=
          lineEnd_le file _ (by omega)
        simp only [chainsTo, Bool.and_eq_true, decide_eq_true_eq]
        exact ⟨trivial, ih (lineEnd file (start + chunkSize)) hele⟩

theorem chunkLoop_internal_strict (file : List Nat) (chunkSize : Nat) :
    ∀ fuel start,
      ((chunkLoop file chunkSize fuel start).dropLast.all fun p => decide (p.1 < p.2)) = true := by
  intro fuel
  induction fuel with
  | zero =>
    intro start
    simp [chunkLoop]
  | succ fuel ih =>
    intro start
    simp only [chunkLoop]
    split
    · simp
    · split
      · simp
      · rename_i htarget he
        obtain ⟨q, rest', hq⟩ := List.exists_cons_of_ne_nil
          (chunkLoop_ne_nil file chunkSize fuel (lineEnd file (start + chunkSize)))
        rw [hq, List.dropLast_cons₂, List.all_cons, ← hq]
        have h1 : start < lineEnd file (start + chunkSize) := by omega
        simp only [Bool.and_eq_true, decide_eq_true_eq]
        exact ⟨h1, ih _⟩

theorem chunkLoop_all_le (file : List Nat) (chunkSize : Nat) :
    ∀ fuel start, start ≤ file.length →
      ((chunkLoop file chunkSize fuel start).all fun p => decide (p.1 ≤ p.2)) = true := by
  intro fuel
  induction fuel with
  | zero =>
    intro start h
    simp [chunkLoop]
    omega
  | succ fuel ih =>
    intro start h
    simp only [chunkLoop]
    split
    · simp
      omega
    · split
      · simp
        omega
      · rename_i htarget he
        have hele : lineEnd file (start + chunkSize) ≤ file.length :=
          lineEnd_le file _ (by omega)
        simp only [List.all_cons, decide_eq_true_eq, Bool.and_eq_true]
        exact ⟨by omega, ih _ hele⟩

theorem chunkLoop_boundaries (file : List Nat) (chunkSize : Nat) :
    ∀ fuel start,
      ((chunkLoop file chunkSize fuel start).dropLast.all fun p =>
        (p.2 == file.length) || (file.getD (p.2 - 1) 0 == 10)) = true := by
  intro fuel
  induction fuel with
  | zero =>
    intro start
    simp [chunkLoop]
  | succ fuel ih =>
    intro start
    simp only [chunkLoop]
    split
    · simp
    · split
      · simp
      · rename_i htarget he
        obtain ⟨q, rest', hq⟩ := List.exists_cons_of_ne_nil
          (chunkLoop_ne_nil file chunkSize fuel (lineEnd file (start + chunkSize)))
        rw [hq, List.dropLast_cons₂, List.all_cons, ← hq, Bool.and_eq_true]
        refine ⟨?_, ih _⟩
        rcases lineEnd_newline file (start + chunkSize) (by omega) with hlen | hnl
        · simp [hlen]
        · simp only [Bool.or_eq_true, beq_iff_eq]
          right
          simpa [List.getD] using hnl

end Hadoop

namespace Hadoop

/-! ## Claim C3 — frame-read termination conditions -/

theorem recvFrame_short (s : List Nat) (hs : s.length < 4) : recvFrame s = none := by
  have h4 : recvExact s 4 = none := by
    simp only [recvExact, ite_eq_right_iff]
    intro h
    omega
  simp [recvFrame, h4]

/-- Claim C3, corrected: the framed read does not distinguish its termination
conditions.  A connection that closes before the 4 length bytes arrive, or
after the length is known but before all payload bytes arrive, returns the same
`none` that a clean close at a frame boundary returns, so the caller cannot
tell a truncated frame from end of stream. -/
theorem recvFrame_close_yields_none :
    recvFrame [] = none ∧
    (∀ s : List Nat, s.length < 4 → recvFrame s = none) ∧
    (∀ n : Nat, ∀ p : List Nat, n < 2 ^ 32 → p.length < n →
      recvFrame (beBytes n ++ p) = none) := by
  refine ⟨rfl, recvFrame_short, ?_⟩
  intro n p hn hp
  have h4 : recvExact (beBytes n ++ p) 4 = some (beBytes n, p) := by
    simpa [beBytes_length] using recvExact_append (beBytes n) p
  have hpnone : recvExact p (beDecode (beBytes n)) = none := by
    rw [beDecode_beBytes n hn]
    simp only [recvExact, ite_eq_right_iff]
    intro h
    omega
  simp [recvFrame, h4, hpnone]

/-- Witness for `recvFrame_close_yields_none`: a stream cut after 2 header
bytes and a stream cut one byte into a declared 2-byte payload both read as
`none`. -/
theorem recvFrame_close_yields_none_witness :
    recvFrame [0, 0] = none ∧ recvFrame (beBytes 2 ++ [65]) = none :=
  ⟨recvFrame_close_yields_none.2.1 [0, 0] (by decide),
   recvFrame_close_yields_none.2.2 2 [65] (by decide) (by decide)⟩

/-- Counterexample to claim C3 as stated: a close mid-header (`[0, 0]`), a
close mid-payload (`[0, 0, 0, 2, 65]`, one byte of a declared 2-byte payload)
and a clean close at a frame boundary (`[]`) all yield the identical result, so
no `TruncatedFrame`-vs-`EndOfStream` distinction exists for the caller. -/
theorem recvFrame_truncation_indistinguishable_cex :
    recvFrame [0, 0] = recvFrame [] ∧
    recvFrame [0, 0, 0, 2, 65] = recvFrame [] ∧
    recvFrame [] = none := by decide

end Hadoop

namespace Hadoop

/-! ## Claim C4 — zero-length shuffle frame -/

/-- Claim C4, corrected: an inbound shuffle frame with declared length zero
leaves the local accumulator unchanged, but it is not a keep-alive — the
`if not payload: break` at client.py line 445 fires on the empty payload, so
the handler stops reading and whatever follows on the connection is discarded. -/
theorem emptyFrame_stops_stream (rest : List Nat) (acc : List Nat → Nat) (v : List Nat) :
    consumeShuffleStream (beBytes 0 ++ rest) acc v = acc v := by
  rw [consumeShuffleStream_step]
  have h4 : recvExact (beBytes 0 ++ rest) 4 = some (beBytes 0, rest) := by
    simpa [beBytes_length] using recvExact_append (beBytes 0) rest
  have h0 : recvExact rest (beDecode (beBytes 0)) = some ([], rest) := by
    rw [beDecode_beBytes 0 (by norm_num)]
    simp [recvExact]
  rw [h4]
  simp [h0]

/-- Counterexample to claim C4 as stated: after a zero-length frame the handler
does not keep reading — a well-formed frame for the word `[97]` that follows it
is never counted, while the same frame on its own is counted. -/
theorem emptyFrame_keepalive_cex :
    consumeShuffleStream ([0, 0, 0, 0] ++ [0, 0, 0, 1, 97]) (fun _ => 0) [97] = 0 ∧
    consumeShuffleStream [0, 0, 0, 1, 97] (fun _ => 0) [97] = 1 := by decide

end Hadoop

namespace Hadoop

/-! ## Claim C5 — chunk offset tiling -/

/-- Claim C5, corrected: the computed offsets always chain exactly from 0 to the
file size (each tile ends where the next begins: no gap, no overlap, covering
the whole file), every tile except possibly the last is nonempty, every tile is
well-ordered (`start ≤ end`), and every non-final boundary either lands
immediately after a line terminator or equals the file size.  The last tile can
be empty — and a non-final boundary can sit at end of file with no terminator —
when the last line runs to end of file. -/
theorem computeChunkOffsets_tiling (file : List Nat) (workers : Nat) :
    chainsTo 0 (computeChunkOffsets file workers) file.length = true ∧
    ((computeChunkOffsets file workers).dropLast.all fun p => decide (p.1 < p.2)) = true ∧
    ((computeChunkOffsets file workers).all fun p => decide (p.1 ≤ p.2)) = true ∧
    ((computeChunkOffsets file workers).dropLast.all fun p =>
      (p.2 == file.length) || (file.getD (p.2 - 1) 0 == 10)) = true := by
  unfold computeChunkOffsets
  dsimp only
  by_cases h : workers ≤ 1 ∨ file.length = 0
  · rw [if_pos h]
    refine ⟨?_, ?_, ?_, ?_⟩ <;> simp [chainsTo]
  · rw [if_neg h]
    exact ⟨chunkLoop_chains file _ _ 0 (Nat.zero_le _),
      chunkLoop_internal_strict file _ _ 0,
      chunkLoop_all_le file _ _ 0 (Nat.zero_le _),
      chunkLoop_boundaries file _ _ 0⟩

/-- Counterexample to claim C5 as stated: for a 10-byte file with no newline and
3 requested chunks the offsets are `[(0, 10), (10, 10)]` — the final tile is
empty (so the boundary sequence is not strictly increasing) and the non-final
boundary 10 does not land after a line terminator. -/
theorem computeChunkOffsets_degenerate_cex :
    computeChunkOffsets (List.replicate 10 97) 3 = [(0, 10), (10, 10)] ∧
    ¬ (∀ p ∈ computeChunkOffsets (List.replicate 10 97) 3, p.1 < p.2) ∧
    ¬ (∀ p ∈ (computeChunkOffsets (List.replicate 10 97) 3).dropLast,
        (List.replicate 10 97).getD (p.2 - 1) 0 = 10) := by decide

end Hadoop

namespace Hadoop

/-! ## Claims C9 and C10 — flush and nonpositive-count send -/

theorem updateFn_same {β : Type} (f : Nat → β) (k : Nat) (v : β) : updateFn f k v k = v := by
  simp [updateFn]

/-- Claim C9, corrected: `_flush_outgoing` leaves the destination's buffer empty
whenever a socket is already cached or connection establishment succeeds — the
`finally: buffer.clear()` runs even when `sendall` raises.  But when no socket
is cached and `_get_outgoing_socket` raises, the call ends with the whole state
(in particular the nonempty buffer) unchanged, the bytes retained. -/
theorem flushOutgoing_buffer_disposition (st : ClientState) (net : NetOracle) (dest : Nat) :
    ((st.outgoingSockets dest = true ∨ net.connectOk dest = true) →
      (flushOutgoing st net dest).1.pendingFrames dest = []) ∧
    (st.outgoingSockets dest = false → net.connectOk dest = false →
      st.pendingFrames dest ≠ [] → flushOutgoing st net dest = (st, false)) := by
  constructor
  · intro hsock
    by_cases hbuf : st.pendingFrames dest = []
    · simp [flushOutgoing, hbuf]
    · rcases hsock with hcached | hconn
      · simp only [flushOutgoing, if_neg hbuf, hcached, if_true, sendallAndClear]
        by_cases hsend : net.sendOk dest = true <;> simp [hsend, updateFn_same]
      · simp only [flushOutgoing, if_neg hbuf]
        by_cases hcached : st.outgoingSockets dest = true
        · simp only [hcached, if_true, sendallAndClear]
          by_cases hsend : net.sendOk dest = true <;> simp [hsend, updateFn_same]
        · simp only [Bool.not_eq_true] at hcached
          simp only [hcached, Bool.false_eq_true, if_false, hconn, if_true, sendallAndClear]
          by_cases hsend : net.sendOk dest = true <;> simp [hsend, updateFn_same]
  · intro hsock hconn hbuf
    simp [flushOutgoing, hbuf, hsock, hconn]

/-- Witness for `flushOutgoing_buffer_disposition`: with three buffered bytes
for destination 5 and no cached socket, a successful connection leaves the
buffer empty, while a failed connection returns with the state unchanged. -/
theorem flushOutgoing_buffer_disposition_witness :
    (flushOutgoing
      { clientFixture with pendingFrames := fun _ => [1, 2, 3] } netFixture 5).1.pendingFrames 5
      = [] ∧
    flushOutgoing { clientFixture with pendingFrames := fun _ => [1, 2, 3] }
        { netFixture with connectOk := fun _ => false } 5
      = ({ clientFixture with pendingFrames := fun _ => [1, 2, 3] }, false) :=
  ⟨(flushOutgoing_buffer_disposition _ _ _).1 (Or.inr (by decide)),
   (flushOutgoing_buffer_disposition _ _ _).2 (by decide) (by decide) (by decide)⟩

/-- Counterexample to claim C9 as stated: a call to `_flush_outgoing` with a
nonempty buffer, no cached socket and failing connection establishment finishes
(by raising) with the buffered bytes still pending, retained for a later retry
(for example the `_flush_all_outgoing` in `_run_map_stage`'s `finally`). -/
theorem flushOutgoing_retains_on_connect_failure_cex :
    ¬ ((flushOutgoing
        { machineIndex := 0
          incomingCounts := fun _ => 0
          pendingFrames := fun _ => [1, 2, 3]
          outgoingSockets := fun _ => false
          flushThreshold := 0
          sentBytes := fun _ => [] }
        { connectOk := fun _ => false, sendOk := fun _ => true } 5).1.pendingFrames 5 = []) := by
  decide

/-- Claim C10, confirmed: `_send_count` with a nonpositive count returns before
touching anything — the accumulator, the pending buffers, the socket cache and
the bytes on the wire are all exactly as before. -/
theorem sendCount_nonpositive_noop (st : ClientState) (net : NetOracle) (dest : Nat)
    (word : List Nat) (count : Int) (h : count ≤ 0) :
    sendCount st net dest word count = (st, true) := by
  simp [sendCount, h]

/-- Witness for `sendCount_nonpositive_noop` at counts 0 and -1. -/
theorem sendCount_nonpositive_noop_witness :
    sendCount clientFixture netFixture 1 [97] 0 = (clientFixture, true) ∧
    sendCount clientFixture netFixture 1 [97] (-1) = (clientFixture, true) :=
  ⟨sendCount_nonpositive_noop _ _ _ _ _ (by decide),
   sendCount_nonpositive_noop _ _ _ _ _ (by decide)⟩

end Hadoop

namespace Hadoop

/-! ## Claim C8 — count batching via frame repetition -/

theorem updateFn_override {β : Type} (f : Nat → β) (k : Nat) (a b : β) :
    updateFn (updateFn f k a) k b = updateFn f k b := by
  funext j
  by_cases h : j = k <;> simp [updateFn, h]

theorem updateFn_self {β : Type} (f : Nat → β) (k : Nat) : updateFn f k (f k) = f := by
  funext j
  by_cases h : j = k <;> simp [updateFn, h]

theorem flatten_replicate_succ {α : Type} (n : Nat) (l : List α) :
    List.flatten (List.replicate (n + 1) l) = l ++ List.flatten (List.replicate n l) := by
  simp [List.replicate_succ]

theorem flatten_replicate_length {α : Type} (n : Nat) (l : List α) :
    (List.flatten (List.replicate n l)).length = n * l.length := by
  induction n with
  | zero => simp
  | succ n ih =>
    rw [flatten_replicate_succ]
    simp [ih, Nat.succ_mul]
    omega

/-- When the threshold is not reached, `_send_count` to a remote destination
only appends `count` copies of the single-word frame to that destination's
pending buffer. -/
theorem sendCount_noflush_eq (st : ClientState) (net : NetOracle) (dest : Nat)
    (word : List Nat) (count : Int) (hc : 1 ≤ count) (hdest : dest ≠ st.machineIndex)
    (hthr : (st.pendingFrames dest).length + count.toNat * (singleWordFrame word).length
      < st.flushThreshold) :
    sendCount st net dest word count =
      ({ st with
          pendingFrames := updateFn st.pendingFrames dest
            (st.pendingFrames dest ++
              List.flatten (List.replicate count.toNat (singleWordFrame word))) },
        true) := by
  have hc0 : ¬ count ≤ 0 := by omega
  have hblen : (st.pendingFrames dest ++
      List.flatten (List.replicate count.toNat (singleWordFrame word))).length =
      (st.pendingFrames dest).length + count.toNat * (singleWordFrame word).length := by
    simp [flatten_replicate_length]
  have hcond : ¬ (st.flushThreshold = 0 ∨
      st.flushThreshold ≤ (st.pendingFrames dest ++
        List.flatten (List.replicate count.toNat (singleWordFrame word))).length) := by
    rw [hblen]
    push_neg
    omega
  simp only [sendCount, if_neg hc0, if_neg hdest]
  rw [if_neg hcond]

/-- Under the same no-flush condition, `count` consecutive `_send_word` calls
produce the same client state as a single `_send_count` with that count. -/
theorem iterSendWord_noflush_eq (net : NetOracle) (dest : Nat) (word : List Nat) :
    ∀ (n : Nat) (st : ClientState), dest ≠ st.machineIndex →
      (st.pendingFrames dest).length + n * (singleWordFrame word).length
        < st.flushThreshold →
      iterSendWord st net dest word n =
        { st with
            pendingFrames := updateFn st.pendingFrames dest
              (st.pendingFrames dest ++
                List.flatten (List.replicate n (singleWordFrame word))) } := by
  intro n
  induction n with
  | zero =>
    intro st hdest hthr
    simp [iterSendWord, updateFn_self]
  | succ n ih =>
    intro st hdest hthr
    have hmul : (n + 1) * (singleWordFrame word).length =
        n * (singleWordFrame word).length + (singleWordFrame word).length :=
      Nat.succ_mul n _
    have hone : (st.pendingFrames dest).length +
        (1 : Int).toNat * (singleWordFrame word).length < st.flushThreshold := by
      simp only [Int.toNat_one, one_mul]
      omega
    have hstep := sendCount_noflush_eq st net dest word 1 (le_refl 1) hdest hone
    simp only [iterSendWord, sendWord, hstep]
    rw [ih]
    · simp only [updateFn_override, updateFn_same, Int.toNat_one]
      congr 2
      have h1 : (List.replicate 1 (singleWordFrame word)).flatten = singleWordFrame word := by
        simp
      rw [h1, List.append_assoc, ← flatten_replicate_succ]
    · exact hdest
    · dsimp only
      rw [updateFn_same]
      simp only [List.length_append, Int.toNat_one]
      have hflen : (List.flatten (List.replicate 1 (singleWordFrame word))).length =
          (singleWordFrame word).length := by simp
      rw [hflen]
      omega

/-- Reading one well-formed single-word frame off the front of a shuffle stream
increments that word's count by one and continues with the rest. -/
theorem consumeShuffleStream_cons_frame (word : List Nat) (hw : word ≠ [])
    (hlen : word.length < 2 ^ 32) (tail : List Nat) (acc : List Nat → Nat) :
    consumeShuffleStream (singleWordFrame word ++ tail) acc =
      consumeShuffleStream tail (fun u => if u = word then acc u + 1 else acc u) := by
  rw [consumeShuffleStream_step]
  have h4 : recvExact (singleWordFrame word ++ tail) 4 =
      some (beBytes word.length, word ++ tail) := by
    simpa [singleWordFrame, List.append_assoc, beBytes_length] using
      recvExact_append (beBytes word.length) (word ++ tail)
  have hp : recvExact (word ++ tail) (beDecode (beBytes word.length)) = some (word, tail) := by
    rw [beDecode_beBytes _ hlen]
    simpa using recvExact_append word tail
  rw [h4]
  simp [hp, hw, decodeWord]

/-- Consuming `n` concatenated copies of the single-word frame for `word`
adds exactly `n` to that word's count and leaves every other word alone, after
which the rest of the stream is processed as if the copies had not been there. -/
theorem consumeShuffleStream_replicated (word : List Nat) (hw : word ≠ [])
    (hlen : word.length < 2 ^ 32) :
    ∀ (n : Nat) (rest : List Nat) (acc : List Nat → Nat),
      consumeShuffleStream
          (List.flatten (List.replicate n (singleWordFrame word)) ++ rest) acc =
        consumeShuffleStream rest (fun u => if u = word then acc u + n else acc u) := by
  intro n
  induction n with
  | zero =>
    intro rest acc
    simp only [List.replicate_zero, List.flatten_nil, List.nil_append]
    refine congrArg (consumeShuffleStream rest) (funext fun u => ?_)
    by_cases h : u = word
    · simp [h]
    · simp [h]
  | succ n ih =>
    intro rest acc
    rw [flatten_replicate_succ, List.append_assoc,
      consumeShuffleStream_cons_frame word hw hlen, ih]
    refine congrArg (consumeShuffleStream rest) (funext fun u => ?_)
    by_cases h : u = word
    · simp only [h, if_true, if_pos]
      omega
    · simp [h]

/-- Claim C8, confirmed: for a word bound for a remote worker with count at
least 1, `_send_count` appends exactly `count` concatenated copies of the
single-word frame to the destination's pending buffer (no flush assumed), the
resulting client state equals that of `count` consecutive `_send_word` calls,
and the receiver's per-frame increment-by-one loop turns those bytes into
exactly `count` for that word, processing the rest of its stream untouched —
the receiving side cannot tell batching from repetition. -/
theorem sendCount_batching_equiv (word : List Nat) (count : Int)
    (hw : word ≠ []) (hlen : word.length < 2 ^ 32) (hc : 1 ≤ count) :
    (∀ st : ClientState, ∀ net : NetOracle, ∀ dest : Nat,
      dest ≠ st.machineIndex →
      (st.pendingFrames dest).length + count.toNat * (singleWordFrame word).length
        < st.flushThreshold →
      (sendCount st net dest word count).1.pendingFrames dest =
        st.pendingFrames dest ++
          List.flatten (List.replicate count.toNat (singleWordFrame word)) ∧
      (sendCount st net dest word count).1 = iterSendWord st net dest word count.toNat) ∧
    (∀ rest : List Nat, ∀ acc : List Nat → Nat, ∀ v : List Nat,
      consumeShuffleStream
          (List.flatten (List.replicate count.toNat (singleWordFrame word)) ++ rest) acc v =
        consumeShuffleStream rest (fun u => if u = word then acc u + count.toNat else acc u) v) := by
  constructor
  · intro st net dest hdest hthr
    rw [sendCount_noflush_eq st net dest word count hc hdest hthr,
      iterSendWord_noflush_eq net dest word count.toNat st hdest hthr]
    exact ⟨updateFn_same _ _ _, rfl⟩
  · intro rest acc v
    rw [consumeShuffleStream_replicated word hw hlen count.toNat rest acc]

/-- Witness for `sendCount_batching_equiv`: word `[97]`, count 2, destination 1
from the fixture client; the buffer receives two copies of the 5-byte frame and
the receiver counts `[97]` twice. -/
theorem sendCount_batching_equiv_witness :
    (sendCount clientFixture netFixture 1 [97] 2).1.pendingFrames 1 =
        clientFixture.pendingFrames 1 ++
          List.flatten (List.replicate (2 : Int).toNat (singleWordFrame [97])) ∧
    consumeShuffleStream
        (List.flatten (List.replicate (2 : Int).toNat (singleWordFrame [97])) ++ [])
        (fun _ => 0) [97] =
      consumeShuffleStream [] (fun u => if u = [97] then (fun _ => 0) u + (2 : Int).toNat
        else (fun _ => 0) u) [97] :=
  ⟨((sendCount_batching_equiv [97] 2 (by decide) (by decide) (by decide)).1
      clientFixture netFixture 1 (by decide) (by decide)).1,
   (sendCount_batching_equiv [97] 2 (by decide) (by decide) (by decide)).2 [] (fun _ => 0) [97]⟩

end Hadoop

namespace Hadoop

/-! ## Master coordinator lemmas -/

theorem mem_dinsert_self (k : Nat) (l : List Nat) : k ∈ dinsert k l := by
  by_cases h : k ∈ l <;> simp [dinsert, h]

/-- A stopped master reacts to no further event: no message is processed and no
broadcast is ever sent again. -/
theorem runEvents_stopped (st : MasterState) (h : st.stopped = true) :
    ∀ evs, runEvents st evs = (st, []) := by
  intro evs
  induction evs with
  | nil => rfl
  | cons ev rest ih =>
    have happ : applyEvent st ev = (st, none) := by
      cases ev <;> simp [applyEvent, h]
    simp [runEvents, happ, ih]

/-- An expired deadline takes the coordinator straight to the timeout shutdown,
before any barrier predicate is evaluated. -/
theorem coordStep_timeout (st : MasterState) (r m rd : Bool) (s : Stage)
    (hdl : deadlineExpired st r m rd = some s) :
    coordStep st r m rd =
      (prepareShutdown st, some (.shutdown (some (stageName s ++ "_timeout")))) := by
  simp [coordStep, hdl]

/-- With no expired deadline, `start_map` not yet sent and the registration
barrier satisfied, the coordinator broadcasts `start_map`. -/
theorem coordStep_startMap (st : MasterState) (r m rd : Bool)
    (hdl : deadlineExpired st r m rd = none) (hsm : st.startMapSent = false)
    (hcl : st.expectedWorkers ≤ st.clients.length) :
    coordStep st r m rd =
      ({ st with
          startMapSent := true
          currentStage := some .map
          regDeadlineActive := false
          mapDeadlineActive := st.stageTimeoutConfigured }, some .startMap) := by
  simp [coordStep, hdl, hsm, hcl]

/-- With no expired deadline and the map barrier count reached, the coordinator
broadcasts `start_reduce` — the stored success flags play no part. -/
theorem coordStep_startReduce (st : MasterState) (r m rd : Bool)
    (hdl : deadlineExpired st r m rd = none) (hsm : st.startMapSent = true)
    (hsr : st.startReduceSent = false)
    (hmf : st.expectedWorkers ≤ st.mapFinKeys.length) :
    coordStep st r m rd =
      ({ st with
          startReduceSent := true
          currentStage := some .reduce
          mapDeadlineActive := false
          reduceDeadlineActive := st.stageTimeoutConfigured }, some .startReduce) := by
  simp [coordStep, hdl, hsm, hsr, hmf]

/-- With no expired deadline and the reduce barrier count reached, the
coordinator aggregates and records the final result, then broadcasts the
completion `shutdown`. -/
theorem coordStep_complete (st : MasterState) (r m rd : Bool)
    (hdl : deadlineExpired st r m rd = none) (hsm : st.startMapSent = true)
    (hsr : st.startReduceSent = true)
    (hrk : st.expectedWorkers ≤ st.reduceKeys.length) :
    coordStep st r m rd =
      ({ st with
          finalEmitted := some (emitFinal st)
          reduceDeadlineActive := false
          currentStage := none
          stopped := true }, some (.shutdown none)) := by
  simp [coordStep, hdl, hsm, hsr, hrk]

end Hadoop

namespace Hadoop

/-! ## Claim C1 — map-stage failure reporting and the map barrier -/

/-- Claim C1, corrected: a worker whose map stage raises (for example a missing
split file) does report `success=false` with the error message on
`map_finished`; but the master counts that report toward the map barrier
regardless of its success flag, so once every expected worker has reported —
failures included — the barrier closes and `start_reduce` IS broadcast.  The
job does not stall until the map timeout. -/
theorem mapFailure_reported_but_barrier_closes :
    (∀ workerId : Nat, ∀ errMsg : String,
      mapFinishedPayload workerId (runMapStageOutcome (some errMsg)) =
        CtrlMsg.mapFinished workerId false (some errMsg)) ∧
    (∀ st : MasterState, ∀ i : Nat, ∀ e : Option String,
      i ∈ (procMsg st (CtrlMsg.mapFinished i false e)).mapFinKeys) ∧
    (∀ st : MasterState, ∀ r m rd : Bool,
      deadlineExpired st r m rd = none → st.startMapSent = true →
      st.startReduceSent = false → st.expectedWorkers ≤ st.mapFinKeys.length →
      (coordStep st r m rd).2 = some CtrlMsg.startReduce) := by
  refine ⟨fun workerId errMsg => rfl, ?_, ?_⟩
  · intro st i e
    simp [procMsg, mem_dinsert_self]
  · intro st r m rd hdl hsm hsr hmf
    rw [coordStep_startReduce st r m rd hdl hsm hsr hmf]

/-- Witness for `mapFailure_reported_but_barrier_closes`: after two registered
workers report `map_finished` — worker 0 failing with an error — the next
coordinator wake-up broadcasts `start_reduce`. -/
theorem mapFailure_reported_but_barrier_closes_witness :
    mapFinishedPayload 0 (runMapStageOutcome (some "split file missing: split_1.txt")) =
      CtrlMsg.mapFinished 0 false (some "split file missing: split_1.txt") ∧
    (coordStep
      (runEvents (initState 2 false false)
        [MEvent.msg (CtrlMsg.register 0 "s0" 6200),
         MEvent.msg (CtrlMsg.register 1 "s1" 6201),
         MEvent.wake false false false,
         MEvent.msg (CtrlMsg.mapFinished 0 false (some "split file missing: split_1.txt")),
         MEvent.msg (CtrlMsg.mapFinished 1 true none)]).1
      false false false).2 = some CtrlMsg.startReduce :=
  ⟨mapFailure_reported_but_barrier_closes.1 0 "split file missing: split_1.txt",
   mapFailure_reported_but_barrier_closes.2.2 _ false false false
     (by decide) (by decide) (by decide) (by decide)⟩

/-- Counterexample to claim C1 as stated: a run in which worker 0's map fails
(and says so on `map_finished`) still sees the master broadcast `start_reduce`
once worker 1's report arrives — the map barrier closes and the job does not
end via the map-stage timeout. -/
theorem mapFailure_startReduce_cex :
    (runEvents (initState 2 false false)
      [MEvent.msg (CtrlMsg.register 0 "s0" 6200),
       MEvent.msg (CtrlMsg.register 1 "s1" 6201),
       MEvent.wake false false false,
       MEvent.msg (CtrlMsg.mapFinished 0 false (some "split file missing: split_1.txt")),
       MEvent.msg (CtrlMsg.mapFinished 1 true none),
       MEvent.wake false false false]).2
    = [CtrlMsg.startMap, CtrlMsg.startReduce] := by decide

end Hadoop

namespace Hadoop

/-! ## Claim C7 — registration timeout -/

/-- Claim C7, confirmed: when the registration deadline has expired at a
coordinator wake-up, the master broadcasts `shutdown` with reason
`registration_timeout`, stops, and never sends anything — in particular no
`start_map` — afterwards.  The deadline check runs before the registration
barrier predicate: the same timeout shutdown fires even at a wake-up where the
barrier is simultaneously satisfied. -/
theorem registration_timeout_halts :
    (∀ st : MasterState, ∀ m rd : Bool,
      st.regDeadlineActive = true → st.clients.length < st.expectedWorkers →
      (coordStep st true m rd).2 = some (CtrlMsg.shutdown (some "registration_timeout")) ∧
      (coordStep st true m rd).1.stopped = true ∧
      ∀ evs, (runEvents (coordStep st true m rd).1 evs).2 = []) ∧
    (∀ st : MasterState, ∀ m rd : Bool,
      st.regDeadlineActive = true → st.expectedWorkers ≤ st.clients.length →
      (coordStep st true m rd).2 = some (CtrlMsg.shutdown (some "registration_timeout"))) := by
  have hkey : ∀ st : MasterState, ∀ m rd : Bool, st.regDeadlineActive = true →
      coordStep st true m rd =
        (prepareShutdown st, some (.shutdown (some "registration_timeout"))) := by
    intro st m rd hreg
    have hdl : deadlineExpired st true m rd = some .registration := by
      simp [deadlineExpired, hreg]
    exact coordStep_timeout st true m rd .registration hdl
  constructor
  · intro st m rd hreg _
    rw [hkey st m rd hreg]
    refine ⟨rfl, rfl, ?_⟩
    intro evs
    rw [runEvents_stopped _ rfl evs]
  · intro st m rd hreg _
    rw [hkey st m rd hreg]

/-- Witness for `registration_timeout_halts`: a master expecting 2 workers with
an armed registration deadline and one registration; at an expired wake-up the
timeout shutdown is broadcast, and the same holds for a master whose barrier is
already satisfied. -/
theorem registration_timeout_halts_witness :
    (coordStep (runEvents (initState 2 true false)
        [MEvent.msg (CtrlMsg.register 0 "s0" 6200)]).1 true false false).2
      = some (CtrlMsg.shutdown (some "registration_timeout")) ∧
    (coordStep (runEvents (initState 1 true false)
        [MEvent.msg (CtrlMsg.register 0 "s0" 6200)]).1 true false false).2
      = some (CtrlMsg.shutdown (some "registration_timeout")) :=
  ⟨(registration_timeout_halts.1 _ false false (by decide) (by decide)).1,
   registration_timeout_halts.2 _ false false (by decide) (by decide)⟩

end Hadoop

namespace Hadoop

/-! ## Claim C2 — all-or-nothing result emission -/

/-- Claim C2, corrected: the failure taxonomy is not all-or-nothing.  On a
stage timeout the master indeed stops without ever emitting a final aggregate;
and on the completion path the emitted aggregate is the per-word sum of the
stored per-worker results.  But a worker's `reduce_finished` with
`success=false` stores an empty result set for that worker, still counts toward
the reduce barrier, and the master then emits a partial aggregate built from
the other workers' results. -/
theorem reduce_aggregate_disposition :
    (∀ st : MasterState, ∀ i : Nat, ∀ e : Option String, ∀ res : List (String × Int),
      ∀ w : String,
      (procMsg st (CtrlMsg.reduceFinished i false e res)).reduceVals i w = 0) ∧
    (∀ st : MasterState, ∀ i : Nat, ∀ e : Option String, ∀ res : List (String × Int),
      i ∈ (procMsg st (CtrlMsg.reduceFinished i false e res)).reduceKeys) ∧
    (∀ st : MasterState, ∀ r m rd : Bool,
      deadlineExpired st r m rd = none → st.startMapSent = true →
      st.startReduceSent = true → st.expectedWorkers ≤ st.reduceKeys.length →
      (coordStep st r m rd).1.finalEmitted = some (emitFinal st) ∧
      (coordStep st r m rd).2 = some (CtrlMsg.shutdown none)) ∧
    (∀ st : MasterState, ∀ w : String,
      emitFinal st w = (st.reduceKeys.map fun k => st.reduceVals k w).sum) ∧
    (∀ st : MasterState, ∀ r m rd : Bool, ∀ s : Stage,
      deadlineExpired st r m rd = some s → st.finalEmitted = none →
      (coordStep st r m rd).1.finalEmitted = none ∧
      ∀ evs, (runEvents (coordStep st r m rd).1 evs).1.finalEmitted = none) := by
  refine ⟨?_, ?_, ?_, fun st w => rfl, ?_⟩
  · intro st i e res w
    simp [procMsg]
  · intro st i e res
    simp [procMsg, mem_dinsert_self]
  · intro st r m rd hdl hsm hsr hrk
    rw [coordStep_complete st r m rd hdl hsm hsr hrk]
    exact ⟨rfl, rfl⟩
  · intro st r m rd s hdl hfe
    rw [coordStep_timeout st r m rd s hdl]
    refine ⟨hfe, ?_⟩
    intro evs
    rw [runEvents_stopped _ rfl evs]
    exact hfe

/-- Witness for `reduce_aggregate_disposition`: a failed `reduce_finished`
stores zero for every word yet joins the barrier; the completion wake-up of a
two-worker job emits the stored aggregate; and a timed-out fresh master never
emits one. -/
theorem reduce_aggregate_disposition_witness :
    (procMsg (initState 2 false false)
        (CtrlMsg.reduceFinished 1 false (some "boom") [("a", 3)])).reduceVals 1 "a" = 0 ∧
    (coordStep (runEvents (initState 2 false false)
        [MEvent.msg (CtrlMsg.register 0 "s0" 6200),
         MEvent.msg (CtrlMsg.register 1 "s1" 6201),
         MEvent.wake false false false,
         MEvent.msg (CtrlMsg.mapFinished 0 true none),
         MEvent.msg (CtrlMsg.mapFinished 1 true none),
         MEvent.wake false false false,
         MEvent.msg (CtrlMsg.reduceFinished 0 true none [("a", 3)]),
         MEvent.msg (CtrlMsg.reduceFinished 1 false (some "boom") [])]).1
      false false false).2 = some (CtrlMsg.shutdown none) ∧
    (coordStep (initState 2 true false) true false false).1.finalEmitted = none :=
  ⟨reduce_aggregate_disposition.1 (initState 2 false false) 1 (some "boom") [("a", 3)] "a",
   (reduce_aggregate_disposition.2.2.1 _ false false false
     (by decide) (by decide) (by decide) (by decide)).2,
   (reduce_aggregate_disposition.2.2.2.2 (initState 2 true false) true false false
     .registration (by decide) rfl).1⟩

/-- Counterexample to claim C2 as stated: in a run where worker 1 reports a
reduce failure, the master still emits a final aggregate — the partial counts
of worker 0 (`a` maps to 3) — before broadcasting the completion `shutdown`,
instead of exiting without a final aggregate. -/
theorem reduceFailure_partial_aggregate_cex :
    (runEvents (initState 2 false false)
      [MEvent.msg (CtrlMsg.register 0 "s0" 6200),
       MEvent.msg (CtrlMsg.register 1 "s1" 6201),
       MEvent.wake false false false,
       MEvent.msg (CtrlMsg.mapFinished 0 true none),
       MEvent.msg (CtrlMsg.mapFinished 1 true none),
       MEvent.wake false false false,
       MEvent.msg (CtrlMsg.reduceFinished 0 true none [("a", 3)]),
       MEvent.msg (CtrlMsg.reduceFinished 1 false (some "boom") []),
       MEvent.wake false false false]).2
      = [CtrlMsg.startMap, CtrlMsg.startReduce, CtrlMsg.shutdown none] ∧
    ((runEvents (initState 2 false false)
      [MEvent.msg (CtrlMsg.register 0 "s0" 6200),
       MEvent.msg (CtrlMsg.register 1 "s1" 6201),
       MEvent.wake false false false,
       MEvent.msg (CtrlMsg.mapFinished 0 true none),
       MEvent.msg (CtrlMsg.mapFinished 1 true none),
       MEvent.wake false false false,
       MEvent.msg (CtrlMsg.reduceFinished 0 true none [("a", 3)]),
       MEvent.msg (CtrlMsg.reduceFinished 1 false (some "boom") []),
       MEvent.wake false false false]).1.finalEmitted).isSome = true ∧
    ((runEvents (initState 2 false false)
      [MEvent.msg (CtrlMsg.register 0 "s0" 6200),
       MEvent.msg (CtrlMsg.register 1 "s1" 6201),
       MEvent.wake false false false,
       MEvent.msg (CtrlMsg.mapFinished 0 true none),
       MEvent.msg (CtrlMsg.mapFinished 1 true none),
       MEvent.wake false false false,
       MEvent.msg (CtrlMsg.reduceFinished 0 true none [("a", 3)]),
       MEvent.msg (CtrlMsg.reduceFinished 1 false (some "boom") []),
       MEvent.wake false false false]).1.finalEmitted).getD (fun _ => 0) "a" = 3 := by
  refine ⟨by decide, by decide, by decide⟩

end Hadoop

namespace Hadoop

/-! ## Claim C6 — start_map idempotence and forward-only stages -/

theorem procMsg_fixed (st : MasterState) (msg : CtrlMsg) :
    (procMsg st msg).startMapSent = st.startMapSent ∧
    (procMsg st msg).startReduceSent = st.startReduceSent ∧
    (procMsg st msg).currentStage = st.currentStage ∧
    (procMsg st msg).stopped = st.stopped := by
  cases msg <;> simp [procMsg]

/-- Once `_start_map_sent` is set it is never cleared by any event. -/
theorem applyEvent_sm_mono (st : MasterState) (ev : MEvent) (h : st.startMapSent = true) :
    (applyEvent st ev).1.startMapSent = true := by
  cases ev with
  | msg msg =>
    by_cases hstop : st.stopped = true <;>
      simp [applyEvent, hstop, (procMsg_fixed st msg).1, h]
  | disconnect i =>
    by_cases hstop : st.stopped = true <;> simp [applyEvent, hstop, h]
  | wake r m rd =>
    by_cases hstop : st.stopped = true
    · simp [applyEvent, hstop, h]
    · simp only [applyEvent, hstop, Bool.false_eq_true, if_false]
      unfold coordStep
      cases hdl : deadlineExpired st r m rd with
      | some s => simpa [prepareShutdown] using h
      | none => split_ifs with h1 h2 h3 <;> simp_all

/-- Once `_start_reduce_sent` is set it is never cleared by any event. -/
theorem applyEvent_sr_mono (st : MasterState) (ev : MEvent) (h : st.startReduceSent = true) :
    (applyEvent st ev).1.startReduceSent = true := by
  cases ev with
  | msg msg =>
    by_cases hstop : st.stopped = true <;>
      simp [applyEvent, hstop, (procMsg_fixed st msg).2.1, h]
  | disconnect i =>
    by_cases hstop : st.stopped = true <;> simp [applyEvent, hstop, h]
  | wake r m rd =>
    by_cases hstop : st.stopped = true
    · simp [applyEvent, hstop, h]
    · simp only [applyEvent, hstop, Bool.false_eq_true, if_false]
      unfold coordStep
      cases hdl : deadlineExpired st r m rd with
      | some s => simpa [prepareShutdown] using h
      | none => split_ifs with h1 h2 h3 <;> simp_all

/-- A `start_map` broadcast only happens on an event that finds
`_start_map_sent` still false, and it sets the flag. -/
theorem applyEvent_out_startMap (st : MasterState) (ev : MEvent)
    (h : (applyEvent st ev).2 = some CtrlMsg.startMap) :
    st.startMapSent = false ∧ (applyEvent st ev).1.startMapSent = true := by
  cases ev with
  | msg msg =>
    by_cases hstop : st.stopped = true <;> simp [applyEvent, hstop] at h
  | disconnect i =>
    by_cases hstop : st.stopped = true <;> simp [applyEvent, hstop] at h
  | wake r m rd =>
    by_cases hstop : st.stopped = true
    · simp [applyEvent, hstop] at h
    · simp only [applyEvent, hstop, Bool.false_eq_true, if_false] at h ⊢
      unfold coordStep at h ⊢
      cases hdl : deadlineExpired st r m rd with
      | some s => rw [hdl] at h; simp at h
      | none =>
        dsimp only at h ⊢
        split_ifs at h ⊢ with h1 h2 h3 <;> simp_all

/-- A `start_reduce` broadcast only happens on an event that finds
`_start_reduce_sent` still false, and it sets the flag. -/
theorem applyEvent_out_startReduce (st : MasterState) (ev : MEvent)
    (h : (applyEvent st ev).2 = some CtrlMsg.startReduce) :
    st.startReduceSent = false ∧ (applyEvent st ev).1.startReduceSent = true := by
  cases ev with
  | msg msg =>
    by_cases hstop : st.stopped = true <;> simp [applyEvent, hstop] at h
  | disconnect i =>
    by_cases hstop : st.stopped = true <;> simp [applyEvent, hstop] at h
  | wake r m rd =>
    by_cases hstop : st.stopped = true
    · simp [applyEvent, hstop] at h
    · simp only [applyEvent, hstop, Bool.false_eq_true, if_false] at h ⊢
      unfold coordStep at h ⊢
      cases hdl : deadlineExpired st r m rd with
      | some s => rw [hdl] at h; simp at h
      | none =>
        dsimp only at h ⊢
        split_ifs at h ⊢ with h1 h2 h3 <;> simp_all

/-- After `_start_map_sent` is set, no run of further events ever broadcasts
`start_map` again. -/
theorem runEvents_count_startMap_zero :
    ∀ (evs : List MEvent) (st : MasterState), st.startMapSent = true →
      ((runEvents st evs).2.count CtrlMsg.startMap) = 0 := by
  intro evs
  induction evs with
  | nil => intro st _; rfl
  | cons ev rest ih =>
    intro st h
    simp only [runEvents]
    rw [List.count_append, ih _ (applyEvent_sm_mono st ev h)]
    cases hout : (applyEvent st ev).2 with
    | none => simp
    | some c =>
      have hc : c ≠ CtrlMsg.startMap := by
        intro hc
        subst hc
        have := (applyEvent_out_startMap st ev hout).1
        rw [h] at this
        cases this
      simp [List.count_cons, hc]

/-- After `_start_reduce_sent` is set, no run of further events ever broadcasts
`start_reduce` again. -/
theorem runEvents_count_startReduce_zero :
    ∀ (evs : List MEvent) (st : MasterState), st.startReduceSent = true →
      ((runEvents st evs).2.count CtrlMsg.startReduce) = 0 := by
  intro evs
  induction evs with
  | nil => intro st _; rfl
  | cons ev rest ih =>
    intro st h
    simp only [runEvents]
    rw [List.count_append, ih _ (applyEvent_sr_mono st ev h)]
    cases hout : (applyEvent st ev).2 with
    | none => simp
    | some c =>
      have hc : c ≠ CtrlMsg.startReduce := by
        intro hc
        subst hc
        have := (applyEvent_out_startReduce st ev hout).1
        rw [h] at this
        cases this
      simp [List.count_cons, hc]

/-- Any run of events broadcasts `start_map` at most once. -/
theorem runEvents_count_startMap_le_one :
    ∀ (evs : List MEvent) (st : MasterState),
      ((runEvents st evs).2.count CtrlMsg.startMap) ≤ 1 := by
  intro evs
  induction evs with
  | nil => intro st; simp [runEvents]
  | cons ev rest ih =>
    intro st
    simp only [runEvents]
    rw [List.count_append]
    cases hout : (applyEvent st ev).2 with
    | none => simpa using ih (applyEvent st ev).1
    | some c =>
      by_cases hc : c = CtrlMsg.startMap
      · subst hc
        rw [runEvents_count_startMap_zero rest _ (applyEvent_out_startMap st ev hout).2]
        simp [List.count_cons]
      · have := ih (applyEvent st ev).1
        simp only [Option.toList_some, List.count_cons, List.count_nil]
        simp [hc]
        omega

/-- Any run of events broadcasts `start_reduce` at most once. -/
theorem runEvents_count_startReduce_le_one :
    ∀ (evs : List MEvent) (st : MasterState),
      ((runEvents st evs).2.count CtrlMsg.startReduce) ≤ 1 := by
  intro evs
  induction evs with
  | nil => intro st; simp [runEvents]
  | cons ev rest ih =>
    intro st
    simp only [runEvents]
    rw [List.count_append]
    cases hout : (applyEvent st ev).2 with
    | none => simpa using ih (applyEvent st ev).1
    | some c =>
      by_cases hc : c = CtrlMsg.startReduce
      · subst hc
        rw [runEvents_count_startReduce_zero rest _ (applyEvent_out_startReduce st ev hout).2]
        simp [List.count_cons]
      · have := ih (applyEvent st ev).1
        simp only [Option.toList_some, List.count_cons, List.count_nil]
        simp [hc]
        omega

theorem masterInv_of_fields (st st2 : MasterState)
    (h1 : st2.startMapSent = st.startMapSent) (h2 : st2.startReduceSent = st.startReduceSent)
    (h3 : st2.currentStage = st.currentStage) (h4 : st2.stopped = st.stopped)
    (h : MasterInv st) : MasterInv st2 := by
  intro hstop
  rw [h4] at hstop
  obtain ⟨i1, i2, i3, i4⟩ := h hstop
  rw [h1, h2, h3]
  exact ⟨i1, i2, i3, i4⟩

theorem masterInv_init (N : Nat) (rc sc : Bool) : MasterInv (initState N rc sc) := by
  intro _
  exact ⟨fun _ => rfl, fun h => Bool.noConfusion h, fun h _ => Bool.noConfusion h,
    fun h => Bool.noConfusion h⟩

theorem masterInv_preserved (st : MasterState) (ev : MEvent) (h : MasterInv st) :
    MasterInv (applyEvent st ev).1 := by
  cases ev with
  | msg msg =>
    by_cases hstop : st.stopped = true
    · simpa [applyEvent, hstop] using h
    · simp only [applyEvent, hstop, Bool.false_eq_true, if_false]
      obtain ⟨f1, f2, f3, f4⟩ := procMsg_fixed st msg
      exact masterInv_of_fields st _ f1 f2 f3 f4 h
  | disconnect i =>
    by_cases hstop : st.stopped = true
    · simpa [applyEvent, hstop] using h
    · have hlive : st.stopped = false := by
        cases hcase : st.stopped
        · rfl
        · exact absurd hcase hstop
      simp only [applyEvent, hstop, Bool.false_eq_true, if_false]
      exact masterInv_of_fields st _ rfl rfl rfl (by simp [hlive]) h
  | wake r m rd =>
    by_cases hstop : st.stopped = true
    · simpa [applyEvent, hstop] using h
    · simp only [applyEvent, hstop, Bool.false_eq_true, if_false]
      have hlive : st.stopped = false := by
        cases hcase : st.stopped
        · rfl
        · exact absurd hcase hstop
      obtain ⟨i1, i2, i3, i4⟩ := h hlive
      unfold coordStep
      cases hdl : deadlineExpired st r m rd with
      | some s =>
        intro hstop2
        simp [prepareShutdown] at hstop2
      | none =>
        dsimp only
        split_ifs with h1 h2 h3
        · intro _
          refine ⟨fun hc => Bool.noConfusion hc, fun _ => rfl, fun _ _ => rfl, fun hc => ?_⟩
          exact absurd (i2 hc) (by simp [h1.1])
        · intro _
          refine ⟨fun hc => ?_, fun _ => h2.1, fun _ hc => Bool.noConfusion hc, fun _ => rfl⟩
          rw [h2.1] at hc
          cases hc
        · intro hstop2
          exact Bool.noConfusion hstop2
        · intro _
          exact ⟨i1, i2, i3, i4⟩

theorem masterInv_runEvents :
    ∀ (evs : List MEvent) (st : MasterState), MasterInv st →
      MasterInv (runEvents st evs).1 := by
  intro evs
  induction evs with
  | nil => intro st h; exact h
  | cons ev rest ih =>
    intro st h
    simp only [runEvents]
    exact ih _ (masterInv_preserved st ev h)

theorem stageRank_le_three (o : Option Stage) : stageRank o ≤ 3 := by
  cases o with
  | none => simp [stageRank]
  | some s => cases s <;> simp [stageRank]

/-- On a master satisfying the invariant, no event moves the stage backwards. -/
theorem applyEvent_stage_forward (st : MasterState) (ev : MEvent) (h : MasterInv st) :
    stageRank st.currentStage ≤ stageRank (applyEvent st ev).1.currentStage := by
  cases ev with
  | msg msg =>
    by_cases hstop : st.stopped = true <;>
      simp [applyEvent, hstop, (procMsg_fixed st msg).2.2.1]
  | disconnect i =>
    by_cases hstop : st.stopped = true <;> simp [applyEvent, hstop]
  | wake r m rd =>
    by_cases hstop : st.stopped = true
    · simp [applyEvent, hstop]
    · simp only [applyEvent, hstop, Bool.false_eq_true, if_false]
      have hlive : st.stopped = false := by
        cases hcase : st.stopped
        · rfl
        · exact absurd hcase hstop
      obtain ⟨i1, i2, i3, i4⟩ := h hlive
      unfold coordStep
      cases hdl : deadlineExpired st r m rd with
      | some s =>
        simpa [prepareShutdown] using stageRank_le_three st.currentStage
      | none =>
        split_ifs with h1 h2 h3
        · rw [i1 h1.1]
          simp [stageRank]
        · rw [i3 h2.1 h2.2.1]
          simp [stageRank]
        · simpa using stageRank_le_three st.currentStage
        · exact le_refl _

/-- Claim C6, confirmed: `start_map` is broadcast as soon as a wake-up finds
the registration barrier first satisfied (no deadline expired), any run of
events broadcasts it at most once — in particular registrations arriving after
the flag was set never retrigger it — the same holds for `start_reduce`, and
from the initial state the stage only ever moves forward. -/
theorem startMap_fires_exactly_once :
    (∀ st : MasterState, ∀ r m rd : Bool,
      deadlineExpired st r m rd = none → st.startMapSent = false →
      st.expectedWorkers ≤ st.clients.length →
      (coordStep st r m rd).2 = some CtrlMsg.startMap) ∧
    (∀ st : MasterState, ∀ evs : List MEvent, st.startMapSent = true →
      ((runEvents st evs).2.count CtrlMsg.startMap) = 0) ∧
    (∀ N : Nat, ∀ rc sc : Bool, ∀ evs : List MEvent,
      ((runEvents (initState N rc sc) evs).2.count CtrlMsg.startMap) ≤ 1) ∧
    (∀ N : Nat, ∀ rc sc : Bool, ∀ evs : List MEvent,
      ((runEvents (initState N rc sc) evs).2.count CtrlMsg.startReduce) ≤ 1) ∧
    (∀ N : Nat, ∀ rc sc : Bool, ∀ evs : List MEvent, ∀ ev : MEvent,
      stageRank ((runEvents (initState N rc sc) evs).1.currentStage) ≤
        stageRank ((applyEvent (runEvents (initState N rc sc) evs).1 ev).1.currentStage)) := by
  refine ⟨?_, ?_, ?_, ?_, ?_⟩
  · intro st r m rd hdl hsm hcl
    rw [coordStep_startMap st r m rd hdl hsm hcl]
  · intro st evs h
    exact runEvents_count_startMap_zero evs st h
  · intro N rc sc evs
    exact runEvents_count_startMap_le_one evs _
  · intro N rc sc evs
    exact runEvents_count_startReduce_le_one evs _
  · intro N rc sc evs ev
    exact applyEvent_stage_forward _ ev (masterInv_runEvents evs _ (masterInv_init N rc sc))

/-- Witness for `startMap_fires_exactly_once`: a one-worker master broadcasts
`start_map` at the wake-up after its registration, and a master that has
already sent it broadcasts no further `start_map` on a later registration plus
wake-up. -/
theorem startMap_fires_exactly_once_witness :
    (coordStep (runEvents (initState 1 false false)
        [MEvent.msg (CtrlMsg.register 0 "s0" 6200)]).1 false false false).2
      = some CtrlMsg.startMap ∧
    ((runEvents (runEvents (initState 1 false false)
        [MEvent.msg (CtrlMsg.register 0 "s0" 6200),
         MEvent.wake false false false]).1
      [MEvent.msg (CtrlMsg.register 5 "s5" 6205),
       MEvent.wake false false false]).2.count CtrlMsg.startMap) = 0 :=
  ⟨startMap_fires_exactly_once.1 _ false false false (by decide) (by decide) (by decide),
   startMap_fires_exactly_once.2.1 _ _ (by decide)⟩

end Hadoop
